import Mathlib

/-!
Verification development for the trading-tracker repository.

The JavaScript source (parser.js / statistics calculator / extended MT5
parser) is shallowly embedded below.  JavaScript numbers are modelled as
exact rationals, timestamps as integers (epoch milliseconds), and strings
as Lean strings manipulated through their character lists.  Host-platform
primitives that are not repository code (the JS Date parser and the
identifier synthesis from Date.now and Math.random) are abstracted into a
JsEnv record; JS parseFloat is modelled by an executable rational parser
faithful on decimal numerals.  Every embedded definition is translated
from the corresponding source function.
-/

namespace TradingTracker

/-! ## Character and string helpers (models of JS string primitives) -/

/-- ASCII whitespace, the relevant fragment of the JS regex class \s. -/
def jsIsWS (c : Char) : Bool :=
  c == ' ' || c == '\t' || c == '\n' || c == '\r' || c.toNat == 11 || c.toNat == 12

/-- Model of String.prototype.trim on a character list. -/
def jsTrimL (cs : List Char) : List Char :=
  ((cs.dropWhile jsIsWS).reverse.dropWhile jsIsWS).reverse

/-- Model of String.prototype.trim. -/
def jsTrim (s : String) : String := String.mk (jsTrimL s.data)

/-- ASCII lower-casing, the fragment of toLowerCase the parser relies on. -/
def lowerChar (c : Char) : Char :=
  if 65 ≤ c.toNat ∧ c.toNat ≤ 90 then Char.ofNat (c.toNat + 32) else c

/-- Model of String.prototype.toLowerCase (ASCII). -/
def jsLower (s : String) : String := String.mk (s.data.map lowerChar)

/-- ASCII upper-casing. -/
def upperChar (c : Char) : Char :=
  if 97 ≤ c.toNat ∧ c.toNat ≤ 122 then Char.ofNat (c.toNat - 32) else c

/-- Model of String.prototype.toUpperCase (ASCII). -/
def jsUpper (s : String) : String := String.mk (s.data.map upperChar)

/-- Whether the first list is an initial segment of the second. -/
def isPrefixL : List Char → List Char → Bool
  | [], _ => true
  | _ :: _, [] => false
  | a :: as, b :: bs => a == b && isPrefixL as bs

/-- Contiguous-substring test, the model of String.prototype.includes. -/
def containsSubL : List Char → List Char → Bool
  | [], pat => isPrefixL pat []
  | l@(_ :: rest), pat => isPrefixL pat l || containsSubL rest pat

/-- Case-sensitive substring test on strings. -/
def strContainsCS (s pat : String) : Bool := containsSubL s.data pat.data

/-- Case-insensitive substring test on strings (ASCII folding, as the
JS regexes with the i flag behave on the ASCII header texts). -/
def strContainsCI (s pat : String) : Bool :=
  containsSubL (s.data.map lowerChar) (pat.data.map lowerChar)

/-- Does the list start with a, then arbitrary whitespace, then b?
Used to model regex fragments of the shape a\s*b. -/
def gapPrefix (a b l : List Char) : Bool :=
  isPrefixL a l && isPrefixL b ((l.drop a.length).dropWhile jsIsWS)

/-- Does a\s*b occur anywhere in the list? -/
def containsGapL : List Char → List Char → List Char → Bool
  | [], a, b => gapPrefix a b []
  | l@(_ :: rest), a, b => gapPrefix a b l || containsGapL rest a b

/-- Gap-pattern search on a string after ASCII lower-casing. -/
def strContainsGapCI (s a b : String) : Bool :=
  containsGapL (s.data.map lowerChar) a.data b.data

/-- Decimal digit-list value. -/
def digitsToNat (cs : List Char) : ℕ :=
  cs.foldl (fun a c => 10 * a + (c.toNat - 48)) 0

/-- Model of the host parseFloat on decimal numerals: optional leading
whitespace and sign, then the longest prefix of digits with an optional
fractional part; none models NaN (no parsable prefix). -/
def parseFloatQ (s : String) : Option ℚ :=
  let cs := s.data.dropWhile jsIsWS
  let sign : ℚ × List Char :=
    match cs with
    | '-' :: r => (-1, r)
    | '+' :: r => (1, r)
    | _ => (1, cs)
  let intPart := sign.2.takeWhile Char.isDigit
  let rest := sign.2.dropWhile Char.isDigit
  let frac : List Char :=
    match rest with
    | '.' :: r => r.takeWhile Char.isDigit
    | _ => []
  if intPart.isEmpty ∧ frac.isEmpty then none
  else some (sign.1 * ((digitsToNat intPart : ℚ) + (digitsToNat frac : ℚ) / (10 ^ frac.length)))

/-- Model of the JS idiom parseFloat(x) || d: NaN and 0 both fall back to
the default d (0 is falsy in JS). -/
def jsOrD (o : Option ℚ) (d : ℚ) : ℚ :=
  match o with
  | none => d
  | some q => if q = 0 then d else q

/-- Replace the first comma, the model of value.replace(a-comma, a-dot). -/
def replaceFirstComma : List Char → List Char
  | [] => []
  | c :: cs => if c = ',' then '.' :: cs else c :: replaceFirstComma cs

/-- parseNumber from the extended parser: strip all whitespace, turn the
first comma into a dot, parse, and map NaN to 0. -/
def parseNumber (s : String) : ℚ :=
  let cleaned := replaceFirstComma (s.data.filter (fun c => !jsIsWS c))
  match parseFloatQ (String.mk cleaned) with
  | some q => q
  | none => 0

/-- Split a string into maximal whitespace-free tokens (model of the DOM
classList token view of a class attribute). -/
def wsTokensAux : List Char → List Char → List (List Char)
  | cur, [] => if cur.isEmpty then [] else [cur.reverse]
  | cur, c :: cs =>
    if jsIsWS c then
      if cur.isEmpty then wsTokensAux [] cs else cur.reverse :: wsTokensAux [] cs
    else wsTokensAux (c :: cur) cs

/-- Class-attribute tokens. -/
def clsTokens (s : String) : List String := (wsTokensAux [] s.data).map String.mk

/-- Split on a separator character, keeping empty pieces (model of the JS
String.prototype.split with a one-character separator). -/
def splitOnCharAux (sep : Char) : List Char → List Char → List String
  | cur, [] => [String.mk cur.reverse]
  | cur, c :: cs =>
    if c = sep then String.mk cur.reverse :: splitOnCharAux sep [] cs
    else splitOnCharAux sep (c :: cur) cs

/-- Split a string on a separator character. -/
def splitOnChar (sep : Char) (s : String) : List String := splitOnCharAux sep [] s.data

/-- Model of Array.prototype.join with a single space. -/
def joinSpace : List String → String
  | [] => ""
  | [x] => x
  | x :: xs => x ++ " " ++ joinSpace xs

/-! ## Data model -/

/-- The canonical Trade record built by normalization.  Fields the JS
object may leave absent (sl, tp, netProfit) are Options; every
normalization path in the source does set netProfit. -/
structure Trade where
  ticket : String
  symbol : String
  type : String
  volume : ℚ
  openPrice : ℚ
  closePrice : ℚ
  profit : ℚ
  commission : ℚ
  swap : ℚ
  sl : Option ℚ
  tp : Option ℚ
  netProfit : Option ℚ
  openTime : ℤ
  closeTime : ℤ
deriving DecidableEq

/-- Column map produced by schema inference: canonical field to index. -/
structure CMap where
  ticket : Option ℕ
  openTime : Option ℕ
  closeTime : Option ℕ
  type : Option ℕ
  volume : Option ℕ
  symbol : Option ℕ
  openPrice : Option ℕ
  closePrice : Option ℕ
  profit : Option ℕ
  commission : Option ℕ
  swap : Option ℕ
  sl : Option ℕ
  tp : Option ℕ
deriving DecidableEq

/-- The empty column map. -/
def emptyCMap : CMap :=
  ⟨none, none, none, none, none, none, none, none, none, none, none, none, none⟩

/-- Number of resolved fields, the model of Object.keys(map).length.  The
markup inference never touches sl and tp, so counting all thirteen fields
agrees with the JS key count for the maps it builds. -/
def cmapKeysCount (m : CMap) : ℕ :=
  ([m.ticket.isSome, m.openTime.isSome, m.closeTime.isSome, m.type.isSome,
    m.volume.isSome, m.symbol.isSome, m.openPrice.isSome, m.closePrice.isSome,
    m.profit.isSome, m.commission.isSome, m.swap.isSome, m.sl.isSome,
    m.tp.isSome].filter (fun b => b)).length

/-- Host-platform facilities used by normalization that are not repository
code: the current instant, the JS date parser (native Date plus the two
regex fallbacks of parseDate, on which no claim depends), and the
synthesised ticket identifier from Date.now and Math.random. -/
structure JsEnv where
  nowMs : ℤ
  parseDateFn : String → ℤ
  freshTicket : String

/-- parseDate: an empty value yields the current instant, otherwise the
abstracted date parser decides (parseDate never fails; its terminal
fallback is also the current instant, folded into parseDateFn). -/
def parseDateE (env : JsEnv) (s : String) : ℤ :=
  if s = "" then env.nowMs else env.parseDateFn s

/-! ## Tabular extraction: CSV line tokenizer -/

/-- parseCSVLine: split a line on comma, semicolon or tab outside quotes,
trimming each cell (a quote character toggles the in-quotes state). -/
def parseCSVLine (line : String) : List String :=
  let fin := line.data.foldl
    (fun (st : List String × List Char × Bool) c =>
      if c = '"' then (st.1, st.2.1, !st.2.2)
      else if (c = ',' ∨ c = ';' ∨ c = '\t') ∧ st.2.2 = false then
        (st.1 ++ [String.mk (jsTrimL st.2.1)], [], st.2.2)
      else (st.1, st.2.1 ++ [c], st.2.2))
    ([], [], false)
  fin.1 ++ [String.mk (jsTrimL fin.2.1)]

/-! ## Schema inference: header pattern tables

Each JS regex from the pattern tables is transcribed as an executable
predicate over the ASCII-lowercased character list of a header cell. -/

def patTicket (cs : List Char) : Bool :=
  containsSubL cs "ticket".data || containsSubL cs "order".data || containsSubL cs "deal".data

def patOpenTime (cs : List Char) : Bool :=
  containsGapL cs "open".data "time".data || containsGapL cs "time".data "open".data ||
  containsGapL cs "entry".data "time".data

def patCloseTime (cs : List Char) : Bool :=
  containsGapL cs "close".data "time".data || containsGapL cs "time".data "close".data ||
  containsGapL cs "exit".data "time".data

def patType (cs : List Char) : Bool :=
  containsSubL cs "type".data || containsSubL cs "direction".data || containsSubL cs "side".data

def patVolume (cs : List Char) : Bool :=
  containsSubL cs "volume".data || containsSubL cs "size".data || containsSubL cs "lot".data

def patSymbol (cs : List Char) : Bool :=
  containsSubL cs "symbol".data || containsSubL cs "instrument".data || containsSubL cs "pair".data

def patOpenPrice (cs : List Char) : Bool :=
  containsGapL cs "open".data "price".data || containsGapL cs "entry".data "price".data ||
  containsGapL cs "price".data "open".data

def patClosePrice (cs : List Char) : Bool :=
  containsGapL cs "close".data "price".data || containsGapL cs "exit".data "price".data ||
  containsGapL cs "price".data "close".data

def patProfitCSV (cs : List Char) : Bool :=
  containsSubL cs "profit".data || containsSubL cs "pl".data || containsSubL cs "p/l".data ||
  containsSubL cs "p&l".data || containsSubL cs "pnl".data || containsSubL cs "result".data ||
  containsSubL cs "gross".data

def patCommission (cs : List Char) : Bool :=
  containsSubL cs "commission".data || containsSubL cs "comm".data

def patSwapCSV (cs : List Char) : Bool :=
  containsSubL cs "swap".data || containsSubL cs "rollover".data

def patSL (cs : List Char) : Bool :=
  containsSubL cs "sl".data || containsSubL cs "s/l".data ||
  containsGapL cs "stop".data "loss".data

def patTP (cs : List Char) : Bool :=
  containsSubL cs "tp".data || containsSubL cs "t/p".data ||
  containsGapL cs "take".data "profit".data

def patTicketH (cs : List Char) : Bool := patTicket cs || containsSubL cs "#".data

def patOpenTimeH (cs : List Char) : Bool :=
  containsGapL cs "open".data "time".data || containsSubL cs "time".data ||
  containsSubL cs "entry".data

def patCloseTimeH (cs : List Char) : Bool :=
  containsGapL cs "close".data "time".data || containsSubL cs "exit".data

def patOpenPriceH (cs : List Char) : Bool :=
  containsGapL cs "open".data "price".data || containsSubL cs "entry".data

def patClosePriceH (cs : List Char) : Bool :=
  containsGapL cs "close".data "price".data || containsSubL cs "exit".data

def patProfitH (cs : List Char) : Bool :=
  containsSubL cs "profit".data || containsSubL cs "pl".data || containsSubL cs "p/l".data ||
  containsSubL cs "p&l".data || containsSubL cs "pnl".data || containsSubL cs "result".data

def patSwapH (cs : List Char) : Bool := containsSubL cs "swap".data

/-- One column of the delimited-text header: for each canonical field in
table order, record the index if the pattern matches and the field is
still unresolved.  The thirteen field updates are independent. -/
def applyCSVPatterns (m : CMap) (idx : ℕ) (col : String) : CMap :=
  let cs := col.data.map lowerChar
  { ticket := if m.ticket.isNone && patTicket cs then some idx else m.ticket
    openTime := if m.openTime.isNone && patOpenTime cs then some idx else m.openTime
    closeTime := if m.closeTime.isNone && patCloseTime cs then some idx else m.closeTime
    type := if m.type.isNone && patType cs then some idx else m.type
    volume := if m.volume.isNone && patVolume cs then some idx else m.volume
    symbol := if m.symbol.isNone && patSymbol cs then some idx else m.symbol
    openPrice := if m.openPrice.isNone && patOpenPrice cs then some idx else m.openPrice
    closePrice := if m.closePrice.isNone && patClosePrice cs then some idx else m.closePrice
    profit := if m.profit.isNone && patProfitCSV cs then some idx else m.profit
    commission := if m.commission.isNone && patCommission cs then some idx else m.commission
    swap := if m.swap.isNone && patSwapCSV cs then some idx else m.swap
    sl := if m.sl.isNone && patSL cs then some idx else m.sl
    tp := if m.tp.isNone && patTP cs then some idx else m.tp }

/-- Accumulate the delimited-text header map over all columns. -/
def buildCSVMap (cols : List String) : CMap :=
  cols.enum.foldl (fun m p => applyCSVPatterns m p.1 p.2) emptyCMap

/-- detectCSVColumns: infer the map from the header line and accept it
only when both the symbol and the profit field were resolved. -/
def detectCSVColumns (header : String) : Option CMap :=
  let m := buildCSVMap (parseCSVLine header)
  if m.symbol.isSome ∧ m.profit.isSome then some m else none

/-- One cell of the markup header row (eleven patterns, no sl or tp). -/
def applyHTMLPatterns (m : CMap) (idx : ℕ) (col : String) : CMap :=
  let cs := col.data.map lowerChar
  { ticket := if m.ticket.isNone && patTicketH cs then some idx else m.ticket
    openTime := if m.openTime.isNone && patOpenTimeH cs then some idx else m.openTime
    closeTime := if m.closeTime.isNone && patCloseTimeH cs then some idx else m.closeTime
    type := if m.type.isNone && patType cs then some idx else m.type
    volume := if m.volume.isNone && patVolume cs then some idx else m.volume
    symbol := if m.symbol.isNone && patSymbol cs then some idx else m.symbol
    openPrice := if m.openPrice.isNone && patOpenPriceH cs then some idx else m.openPrice
    closePrice := if m.closePrice.isNone && patClosePriceH cs then some idx else m.closePrice
    profit := if m.profit.isNone && patProfitH cs then some idx else m.profit
    commission := if m.commission.isNone && patCommission cs then some idx else m.commission
    swap := if m.swap.isNone && patSwapH cs then some idx else m.swap
    sl := m.sl
    tp := m.tp }

/-- Accumulate the markup header map over all cells. -/
def buildHTMLMap (values : List String) : CMap :=
  values.enum.foldl (fun m p => applyHTMLPatterns m p.1 p.2) emptyCMap

/-- detectHTMLColumns: accept the inferred map exactly when at least
three fields were resolved. -/
def detectHTMLColumns (values : List String) : Option CMap :=
  let m := buildHTMLMap values
  if 3 ≤ cmapKeysCount m then some m else none

/-! ## Trade normalization -/

/-- normalizeType: lower-case and trim, then classify as sell on a
sell or short substring, an exact sell, or an exact digit one. -/
def normalizeType (v : String) : String :=
  let t := jsTrim (jsLower v)
  if strContainsCS t "sell" || strContainsCS t "short" || t == "sell" || t == "1" then "sell"
  else "buy"

/-- mapColumnsToTrade: build a Trade from raw cells through a column map;
a JS out-of-range index reads undefined, whose numeric parse falls to the
field default, modelled by the empty-string default of getD. -/
def mapColumnsToTrade (env : JsEnv) (values : List String) (m : CMap) : Trade :=
  let g := fun (i : ℕ) => values.getD i ""
  let profit := match m.profit with | some i => jsOrD (parseFloatQ (g i)) 0 | none => 0
  let commission := match m.commission with | some i => jsOrD (parseFloatQ (g i)) 0 | none => 0
  let swap := match m.swap with | some i => jsOrD (parseFloatQ (g i)) 0 | none => 0
  { ticket := match m.ticket with | some i => g i | none => env.freshTicket
    symbol := match m.symbol with | some i => g i | none => "UNKNOWN"
    type := match m.type with | some i => normalizeType (g i) | none => "buy"
    volume := match m.volume with | some i => jsOrD (parseFloatQ (g i)) (1/100) | none => 1/100
    openPrice := match m.openPrice with | some i => jsOrD (parseFloatQ (g i)) 0 | none => 0
    closePrice := match m.closePrice with | some i => jsOrD (parseFloatQ (g i)) 0 | none => 0
    profit := profit
    commission := commission
    swap := swap
    sl := none
    tp := none
    netProfit := some (profit + commission + swap)
    openTime := match m.openTime with | some i => parseDateE env (g i) | none => env.nowMs
    closeTime := match m.closeTime with | some i => parseDateE env (g i) | none => env.nowMs }

/-- parseGenericCSVRow: positional fallback recognising the 13-column
broker layout, then the minimal 6-column layout, otherwise nothing. -/
def parseGenericCSVRow (env : JsEnv) (values : List String) : Option Trade :=
  if 13 ≤ values.length then
    let g := fun (i : ℕ) => values.getD i ""
    some
      { ticket := g 0
        openTime := parseDateE env (g 1)
        type := normalizeType (g 2)
        volume := jsOrD (parseFloatQ (g 3)) (1/100)
        symbol := g 4
        openPrice := jsOrD (parseFloatQ (g 5)) 0
        closeTime := parseDateE env (g 8)
        closePrice := jsOrD (parseFloatQ (g 9)) 0
        commission := jsOrD (parseFloatQ (g 10)) 0
        swap := jsOrD (parseFloatQ (g 11)) 0
        profit := jsOrD (parseFloatQ (g 12)) 0
        netProfit := some (jsOrD (parseFloatQ (g 12)) 0 + jsOrD (parseFloatQ (g 10)) 0 +
          jsOrD (parseFloatQ (g 11)) 0)
        sl := none
        tp := none }
  else if 6 ≤ values.length then
    let profit := jsOrD (parseFloatQ (values.getD (values.length - 1) "")) 0
    some
      { ticket := env.freshTicket
        symbol := values.getD 0 ""
        type := normalizeType (values.getD 1 "")
        volume := jsOrD (parseFloatQ (values.getD 2 "")) (1/100)
        openPrice := jsOrD (parseFloatQ (values.getD 3 "")) 0
        closePrice := jsOrD (parseFloatQ (values.getD 4 "")) 0
        profit := profit
        commission := 0
        swap := 0
        netProfit := some profit
        openTime := env.nowMs
        closeTime := env.nowMs
        sl := none
        tp := none }
  else none

/-- isValidTrade: a non-empty, non-sentinel symbol (the JS typeof checks
on profit and netProfit are always satisfied by normalized trades). -/
def isValidTrade (t : Trade) : Bool :=
  !(t.symbol == "") && !(t.symbol == "UNKNOWN")

/-! ## Delimited-text pipeline -/

/-- The two fatal parse errors the pipeline can surface. -/
inductive PErr where
  | emptyCSV
  | noTrades
deriving DecidableEq

instance {ε α : Type} [DecidableEq ε] [DecidableEq α] : DecidableEq (Except ε α) :=
  fun a b =>
    match a, b with
    | .ok x, .ok y => decidable_of_iff (x = y) (by simp)
    | .error x, .error y => decidable_of_iff (x = y) (by simp)
    | .ok _, .error _ => isFalse (by simp)
    | .error _, .ok _ => isFalse (by simp)

/-- One data row of the delimited-text loop: tokenize, skip short rows,
normalize through the column map or the positional fallback, keep the
trade when valid. -/
def csvRowStep (env : JsEnv) (columnMap : Option CMap) (acc : List Trade)
    (line : String) : List Trade :=
  let values := parseCSVLine line
  if values.length < 5 then acc
  else
    let otr := match columnMap with
      | some m => some (mapColumnsToTrade env values m)
      | none => parseGenericCSVRow env values
    match otr with
    | some tr => if isValidTrade tr then acc ++ [tr] else acc
    | none => acc

/-- parseCSV: split into non-blank lines, require at least two, infer the
header map from the lower-cased first line, normalize the remaining rows
(all rows when no header was recognised), and fail when no valid trade
was recovered. -/
def parseCSV (env : JsEnv) (content : String) : Except PErr (List Trade) :=
  let lines := (splitOnChar '\n' content).filter (fun l => jsTrim l ≠ "")
  if lines.length < 2 then .error .emptyCSV
  else
    let columnMap := detectCSVColumns (jsLower (lines.getD 0 ""))
    let rows := if columnMap.isSome then lines.drop 1 else lines
    let trades := rows.foldl (csvRowStep env columnMap) []
    if trades.isEmpty then .error .noTrades else .ok trades

/-! ## Markup (HTML) pipeline

A document is modelled as its list of tables, each table a list of rows,
each row a list of cells carrying the element kind (th or td), the class
attribute and the text content. -/

/-- A table cell. -/
structure Cell where
  isTH : Bool
  cls : String
  txt : String
deriving DecidableEq

/-- A table row. -/
abbrev Row := List Cell

/-- Model of row.textContent: concatenated cell texts. -/
def rowTextContent (r : Row) : String :=
  String.mk (r.foldl (fun acc c => acc ++ c.txt.data) [])

/-- isHeaderRow: any header keyword occurs in the joined lowered text. -/
def isHeaderRow (values : List String) : Bool :=
  let text := jsLower (joinSpace values)
  ["ticket", "symbol", "type", "volume", "profit", "time", "price", "order"].any
    (fun k => strContainsCS text k)

/-- isNonTradeRow: balance, deposit, withdrawal, total-prefix, closed
p/l, summary, credit or rebate markers in the joined lowered text. -/
def isNonTradeRow (values : List String) : Bool :=
  let text := jsLower (joinSpace values)
  strContainsCS text "balance" || strContainsCS text "deposit" ||
  strContainsCS text "withdraw" || isPrefixL "total".data text.data ||
  strContainsCS text "closed p/l" || strContainsCS text "summary" ||
  strContainsCS text "credit" || strContainsCS text "rebate"

/-- The profit-token shape of the generic markup row scan, after all
whitespace is removed: optional minus, optional dollar, digits, optional
dot with trailing digits. -/
def profitLike (cs : List Char) : Bool :=
  let cs1 := match cs with | '-' :: r => r | _ => cs
  let cs2 := match cs1 with | '$' :: r => r | _ => cs1
  let ds := cs2.takeWhile Char.isDigit
  let rest := cs2.drop ds.length
  !ds.isEmpty &&
    (match rest with
     | [] => true
     | '.' :: r => r.all Char.isDigit
     | _ => false)

/-- Three letters, an optional slash, three letters, anywhere. -/
def pairAt : List Char → Bool
  | a :: b :: c :: rest =>
    if a.isAlpha && b.isAlpha && c.isAlpha then
      match rest with
      | '/' :: d :: e :: f :: _ => d.isAlpha && e.isAlpha && f.isAlpha
      | d :: e :: f :: _ => d.isAlpha && e.isAlpha && f.isAlpha
      | _ => false
    else false
  | _ => false

/-- Scan all suffixes for the currency-pair shape. -/
def pairScan : List Char → Bool
  | [] => false
  | l@(_ :: rest) => pairAt l || pairScan rest

/-- The symbol-token shape: six or more letters, or a currency pair. -/
def symbolLike (v : String) : Bool :=
  (decide (6 ≤ v.data.length) && v.data.all Char.isAlpha) || pairScan v.data

/-- parseGenericHTMLRow: drop blank cells, locate the last profit-shaped
token, pick the first symbol-shaped token (UNKNOWN otherwise), classify
the side from any sell or short token, and build a minimal trade whose
profit is the token with non-numeric characters stripped. -/
def parseGenericHTMLRow (env : JsEnv) (values : List String) : Option Trade :=
  let cleaned := values.filter (fun v => !(jsTrim v == ""))
  match cleaned.enum.reverse.find? (fun q => profitLike (q.2.data.filter (fun c => !jsIsWS c))) with
  | none => none
  | some p =>
    let symbol := match cleaned.find? symbolLike with
      | some v => jsUpper v
      | none => "UNKNOWN"
    let ty := if cleaned.any (fun v => strContainsCI v "sell" || strContainsCI v "short")
      then "sell" else "buy"
    let profit := jsOrD
      (parseFloatQ (String.mk (p.2.data.filter (fun c => c.isDigit || c == '.' || c == '-')))) 0
    some
      { ticket := env.freshTicket
        symbol := symbol
        type := ty
        volume := 1/100
        openPrice := 0
        closePrice := 0
        profit := profit
        commission := 0
        swap := 0
        netProfit := some profit
        openTime := env.nowMs
        closeTime := env.nowMs
        sl := none
        tp := none }

/-- One row of the generic markup table walk, threading the header map:
rows with under four cells are skipped, hidden-class cells (an exact
class token) are dropped, a header row fixes the map once, non-trade rows
are skipped, and a valid normalized trade is appended. -/
def htmlStep (env : JsEnv) (st : Option CMap × List Trade) (row : Row) :
    Option CMap × List Trade :=
  if row.length < 4 then st
  else
    let visible := row.filter (fun c => !((clsTokens c.cls).contains "hidden"))
    let cellValues := visible.map (fun c => jsTrim c.txt)
    if st.1.isNone && isHeaderRow cellValues then (detectHTMLColumns cellValues, st.2)
    else if isNonTradeRow cellValues then st
    else
      let otr := match st.1 with
        | some m => some (mapColumnsToTrade env cellValues m)
        | none => parseGenericHTMLRow env cellValues
      match otr with
      | some tr => if isValidTrade tr then (st.1, st.2 ++ [tr]) else st
      | none => st

/-- parseHTMLTable: fold the generic row walk over a table. -/
def parseHTMLTable (env : JsEnv) (rows : List Row) : List Trade :=
  (rows.foldl (htmlStep env) (none, [])).2

/-- The MT5 Positions data row, read at the fixed visible offsets.  The
caller guarantees at least thirteen visible values. -/
def mt5Trade (env : JsEnv) (visible : List String) : Trade :=
  let g := fun (i : ℕ) => visible.getD i ""
  let profit := parseNumber (g 12)
  let commission := parseNumber (g 10)
  let swap := parseNumber (g 11)
  { ticket := g 1
    symbol := g 2
    type := jsLower (g 3)
    volume := parseNumber (g 4)
    openPrice := parseNumber (g 5)
    sl := some (parseNumber (g 6))
    tp := some (parseNumber (g 7))
    closeTime := parseDateE env (g 8)
    closePrice := parseNumber (g 9)
    commission := commission
    swap := swap
    profit := profit
    openTime := parseDateE env (g 0)
    netProfit := some (profit + commission + swap) }

/-- One row of the MT5 Positions state machine: section markers in th
cells open and close the Positions section, the Time/Position/Symbol row
marks the table header, and later rows with at least five td cells and
thirteen visible values of a buy or sell type become trades. -/
def mt5Step (env : JsEnv) (st : Bool × Bool × List Trade) (row : Row) :
    Bool × Bool × List Trade :=
  let rowText := rowTextContent row
  let flags := (row.filter (fun c => c.isTH)).foldl
    (fun (p : Bool × Bool) cell =>
      let t := jsTrim cell.txt
      if t = "Positions" then (true, p.2)
      else if p.1 ∧ (t = "Orders" ∨ t = "Deals" ∨ t = "Results") then (false, false)
      else p)
    (st.1, st.2.1)
  if flags.1 = false then (flags.1, flags.2, st.2.2)
  else
    let isHdr := match row with
      | [] => false
      | c :: _ => jsTrim c.txt = "Time" ∧ strContainsCS rowText "Position" = true ∧
          strContainsCS rowText "Symbol" = true
    if isHdr then (flags.1, true, st.2.2)
    else if flags.2 = false then (flags.1, flags.2, st.2.2)
    else
      let dataCells := row.filter (fun c => !c.isTH)
      if dataCells.length < 5 then (flags.1, flags.2, st.2.2)
      else
        let visible := (dataCells.filter (fun c => !(strContainsCS c.cls "hidden"))).map
          (fun c => jsTrim c.txt)
        if visible.length < 13 then (flags.1, flags.2, st.2.2)
        else
          let ty := jsLower (visible.getD 3 "")
          if ty ≠ "buy" ∧ ty ≠ "sell" then (flags.1, flags.2, st.2.2)
          else (flags.1, flags.2, st.2.2 ++ [mt5Trade env visible])

/-- parseMT5Report: run the Positions state machine over every row of the
document in order. -/
def parseMT5Report (env : JsEnv) (rows : List Row) : List Trade :=
  (rows.foldl (mt5Step env) (false, false, [])).2.2

/-- parseHTML (extended parser): try the MT5 Positions walk over all rows
first, otherwise fall back to the generic per-table walk over tables with
at least two rows, and fail when no valid trade was recovered.  The
account-metadata harvest is a side product no claim depends on and is not
modelled. -/
def parseHTML (env : JsEnv) (doc : List (List Row)) : Except PErr (List Trade) :=
  let mt5 := parseMT5Report env doc.flatten
  if 0 < mt5.length then .ok mt5
  else
    let trades := doc.foldl
      (fun acc tbl => if tbl.length < 2 then acc else acc ++ parseHTMLTable env tbl) []
    if trades.isEmpty then .error .noTrades else .ok trades

/-! ## Encoding detector (extended parser, markup-hinted buffers) -/

/-- The three encodings the detector can choose. -/
inductive Enc where
  | utf16le
  | utf16be
  | utf8
deriving DecidableEq

/-- Printable ASCII byte. -/
def isPrintableByte (b : ℕ) : Bool := decide (32 ≤ b) && decide (b ≤ 126)

/-- The BOM-less sample count: positions 0, 2, ... strictly below
min 100 (length - 1) holding a printable ASCII byte followed by a zero
byte (position k of fifty candidate even offsets i = 2k). -/
def utf16Count (bytes : List ℕ) : ℕ :=
  (List.range 50).countP
    (fun k =>
      decide (2 * k + 1 < bytes.length) && isPrintableByte (bytes.getD (2 * k) 0) &&
        decide (bytes.getD (2 * k + 1) 0 = 0))

/-- detectEncoding: FF FE and FE FF byte-order marks first, then the
BOM-less sample with the strict threshold of twenty, then UTF-8.  An
absent byte reads as 0, as the JS undefined comparisons behave. -/
def detectEncoding (bytes : List ℕ) : Enc :=
  if bytes.getD 0 0 = 255 ∧ bytes.getD 1 0 = 254 then .utf16le
  else if bytes.getD 0 0 = 254 ∧ bytes.getD 1 0 = 255 then .utf16be
  else if 20 < utf16Count bytes then .utf16le
  else .utf8

/-! ## Statistics engine -/

/-- getTradeProfit: netProfit when present, otherwise gross profit. -/
def getTradeProfit (t : Trade) : ℚ :=
  match t.netProfit with
  | some q => q
  | none => t.profit

/-- sortTradesByDate: stable ascending sort by closeTime.  The JS array
sort is stable, so any stable sort gives the same sequence. -/
def sortTradesByDate (trades : List Trade) : List Trade :=
  trades.insertionSort (fun a b => a.closeTime ≤ b.closeTime)

/-- One point of the equity curve. -/
structure EquityPoint where
  date : ℤ
  equity : ℚ
  trade : Trade
deriving DecidableEq

/-- A default point for safe indexing in statements. -/
def dPoint : EquityPoint :=
  { date := 0
    equity := 0
    trade :=
      { ticket := "", symbol := "", type := "", volume := 0, openPrice := 0, closePrice := 0
        profit := 0, commission := 0, swap := 0, sl := none, tp := none, netProfit := none
        openTime := 0, closeTime := 0 } }

/-- The running-sum loop of getEquityCurve. -/
def equityAux (e : ℚ) : List Trade → List EquityPoint
  | [] => []
  | t :: ts =>
    let e2 := e + getTradeProfit t
    { date := t.closeTime, equity := e2, trade := t } :: equityAux e2 ts

/-- getEquityCurve: cumulative net profit over the sorted trades, one
point per trade. -/
def getEquityCurve (trades : List Trade) : List EquityPoint :=
  equityAux 0 (sortTradesByDate trades)

/-- One step of the drawdown scan: raise the running peak, then compare
the current drawdown against the running maximum. -/
def ddStep (s : ℚ × ℚ) (pt : EquityPoint) : ℚ × ℚ :=
  let peak := if s.2 < pt.equity then pt.equity else s.2
  let dd := peak - pt.equity
  (if s.1 < dd then dd else s.1, peak)

/-- getMaxDrawdown: scan the equity curve with the peak seeded from its
first point; an empty curve reports zero. -/
def getMaxDrawdown (trades : List Trade) : ℚ :=
  match getEquityCurve trades with
  | [] => 0
  | p :: rest => (((p :: rest).foldl ddStep (0, p.equity))).1

/-- One step of the win-streak scan. -/
def winStep (s : ℕ × ℕ) (t : Trade) : ℕ × ℕ :=
  if 0 < getTradeProfit t then (max s.1 (s.2 + 1), s.2 + 1) else (s.1, 0)

/-- One step of the lose-streak scan. -/
def loseStep (s : ℕ × ℕ) (t : Trade) : ℕ × ℕ :=
  if getTradeProfit t < 0 then (max s.1 (s.2 + 1), s.2 + 1) else (s.1, 0)

/-- getMaxWinStreak: the maximum component of the win-streak scan. -/
def getMaxWinStreak (trades : List Trade) : ℕ :=
  ((sortTradesByDate trades).foldl winStep (0, 0)).1

/-- getMaxLoseStreak: the maximum component of the lose-streak scan. -/
def getMaxLoseStreak (trades : List Trade) : ℕ :=
  ((sortTradesByDate trades).foldl loseStep (0, 0)).1

/-- The running win-streak counter after the first k sorted trades. -/
def winStreakAt (trades : List Trade) (k : ℕ) : ℕ :=
  (((sortTradesByDate trades).take k).foldl winStep (0, 0)).2

/-- The running lose-streak counter after the first k sorted trades. -/
def loseStreakAt (trades : List Trade) (k : ℕ) : ℕ :=
  (((sortTradesByDate trades).take k).foldl loseStep (0, 0)).2

/-- The ratio metrics land in the rationals extended with the JS
Infinity sentinel. -/
inductive PFVal where
  | inf
  | val (q : ℚ)
deriving DecidableEq

/-- getWinningTrades. -/
def getWinningTrades (trades : List Trade) : List Trade :=
  trades.filter (fun t => decide (0 < getTradeProfit t))

/-- getLosingTrades. -/
def getLosingTrades (trades : List Trade) : List Trade :=
  trades.filter (fun t => decide (getTradeProfit t < 0))

/-- getProfitFactor: gross wins over the absolute gross losses, with the
Infinity and zero special cases when the losses vanish. -/
def getProfitFactor (trades : List Trade) : PFVal :=
  let totalWins := ((getWinningTrades trades).map getTradeProfit).sum
  let totalLosses := |((getLosingTrades trades).map getTradeProfit).sum|
  if totalLosses = 0 then (if 0 < totalWins then .inf else .val 0)
  else .val (totalWins / totalLosses)

/-- getAverageWin. -/
def getAverageWin (trades : List Trade) : ℚ :=
  let wins := getWinningTrades trades
  if wins.length = 0 then 0 else (wins.map getTradeProfit).sum / wins.length

/-- getAverageLoss. -/
def getAverageLoss (trades : List Trade) : ℚ :=
  let losses := getLosingTrades trades
  if losses.length = 0 then 0 else (losses.map getTradeProfit).sum / losses.length

/-- getRiskRewardRatio in the source: average win magnitude over average
loss magnitude with the same Infinity and zero special cases. -/
def getRiskReward (trades : List Trade) : PFVal :=
  let avgWin := getAverageWin trades
  let avgLoss := |getAverageLoss trades|
  if avgLoss = 0 then (if 0 < avgWin then .inf else .val 0)
  else .val (avgWin / avgLoss)

/-! ## P and L histogram -/

/-- The profits the histogram is built from. -/
def pnlProfits (trades : List Trade) : List ℚ := trades.map getTradeProfit

/-- Math.min over a non-empty spread (zero on an empty list, unused). -/
def listMinQ : List ℚ → ℚ
  | [] => 0
  | x :: xs => xs.foldl min x

/-- Math.max over a non-empty spread (zero on an empty list, unused). -/
def listMaxQ : List ℚ → ℚ
  | [] => 0
  | x :: xs => xs.foldl max x

/-- Bounded search for the least k with n ≤ k * k, starting at k with the
given fuel. -/
def ceilSqrtAux (n : ℕ) : ℕ → ℕ → ℕ
  | fuel, k =>
    if n ≤ k * k then k
    else
      match fuel with
      | 0 => k
      | f + 1 => ceilSqrtAux n f (k + 1)

/-- Math.ceil of Math.sqrt on a natural number: the least k with
n ≤ k * k (fuel n always suffices since n ≤ n * n). -/
def ceilSqrtN (n : ℕ) : ℕ := ceilSqrtAux n n 0

/-- The histogram bin count: min(20, ceil(sqrt(N))). -/
def binCountOf (n : ℕ) : ℕ := min 20 (ceilSqrtN n)

/-- Observed minimum profit. -/
def pnlMin (trades : List Trade) : ℚ := listMinQ (pnlProfits trades)

/-- Observed maximum profit. -/
def pnlMax (trades : List Trade) : ℚ := listMaxQ (pnlProfits trades)

/-- Uniform bin width spanning the observed profit range. -/
def pnlBinSize (trades : List Trade) : ℚ :=
  (pnlMax trades - pnlMin trades) / (binCountOf (pnlProfits trades).length : ℚ)

/-- getPnLDistribution, reduced to its bin counts (the bin-centre labels
and bar colours are presentational): bin i counts the profits p with
binStart ≤ p < binStart + binSize, binStart = min + i * binSize. -/
def getPnLDistribution (trades : List Trade) : List ℕ :=
  let profits := pnlProfits trades
  if profits.isEmpty then []
  else
    (List.range (binCountOf profits.length)).map
      (fun (i : ℕ) =>
        let binStart := pnlMin trades + (i : ℚ) * pnlBinSize trades
        let binEnd := binStart + pnlBinSize trades
        profits.countP (fun p => decide (binStart ≤ p) && decide (p < binEnd)))

/-! ## Concrete fixtures used by witnesses -/

/-- A fixed environment instance. -/
def env0 : JsEnv := { nowMs := 0, parseDateFn := fun _ => 0, freshTicket := "T" }

/-- A 13-column positional CSV row. -/
def gvals : List String :=
  ["1", "", "buy", "1", "EURUSD", "1.0", "0", "0", "", "1.1", "-2", "-1", "50"]

/-- The trade the 13-column fallback builds from gvals. -/
def gTrade : Trade :=
  { ticket := "1", symbol := "EURUSD", type := "buy", volume := 1, openPrice := 1
    closePrice := 11/10, profit := 50, commission := -2, swap := -1, sl := none, tp := none
    netProfit := some 47, openTime := 0, closeTime := 0 }

/-- A breakeven trade. -/
def tZero : Trade :=
  { ticket := "a", symbol := "EURUSD", type := "buy", volume := 1, openPrice := 0, closePrice := 0
    profit := 0, commission := 0, swap := 0, sl := none, tp := none, netProfit := some 0
    openTime := 0, closeTime := 0 }

/-- A winning trade with net profit one. -/
def tOne : Trade := { tZero with ticket := "b", netProfit := some 1, profit := 1 }

/-- A losing trade with net profit minus one. -/
def tLoss : Trade := { tZero with ticket := "c", netProfit := some (-1), profit := -1 }

/-- A concrete two-line CSV input with a recognisable header. -/
def csvFix : String := "symbol,type,volume,open price,profit\nEURUSD,buy,1,1.0,50"

/-- The single trade parseCSV recovers from csvFix. -/
def csvTradeFix : Trade :=
  { ticket := "T", symbol := "EURUSD", type := "buy", volume := 1, openPrice := 1
    closePrice := 0, profit := 50, commission := 0, swap := 0, sl := none, tp := none
    netProfit := some 50, openTime := 0, closeTime := 0 }

/-- A plain td cell with no class attribute. -/
def cellTD (txt : String) : Cell := { isTH := false, cls := "", txt := txt }

/-- A concrete one-table markup document: a header row and one data
row. -/
def htmlDocFix : List (List Row) :=
  [[[cellTD "symbol", cellTD "type", cellTD "volume", cellTD "profit"],
    [cellTD "EURUSD", cellTD "buy", cellTD "1", cellTD "50"]]]

/-- The single trade parseHTML recovers from htmlDocFix. -/
def htmlTradeFix : Trade :=
  { ticket := "T", symbol := "EURUSD", type := "buy", volume := 1, openPrice := 0
    closePrice := 0, profit := 50, commission := 0, swap := 0, sl := none, tp := none
    netProfit := some 50, openTime := 0, closeTime := 0 }

/-- There is at least one winning trade. -/
def hasWin (trades : List Trade) : Prop := ∃ t ∈ trades, 0 < getTradeProfit t

/-- There is at least one losing trade. -/
def hasLoss (trades : List Trade) : Prop := ∃ t ∈ trades, getTradeProfit t < 0

/-! ## Claim C1: net profit decomposition at normalization -/

/-- Every trade the MT5 Positions walk appends satisfies the net-profit
decomposition by construction. -/
theorem mt5Trade_netProfit (env : JsEnv) (vs : List String) :
    (mt5Trade env vs).netProfit =
      some ((mt5Trade env vs).profit + (mt5Trade env vs).commission + (mt5Trade env vs).swap) := by
  simp [mt5Trade]

/-- The MT5 row step either keeps the accumulated trades or appends one
trade built by mt5Trade. -/
theorem mt5Step_trades (env : JsEnv) (st : Bool × Bool × List Trade) (row : Row) :
    (mt5Step env st row).2.2 = st.2.2 ∨
      ∃ vs, (mt5Step env st row).2.2 = st.2.2 ++ [mt5Trade env vs] := by
  unfold mt5Step
  dsimp only
  repeat' split
  all_goals first
    | (left; rfl)
    | (right; exact ⟨_, rfl⟩)

/-- The MT5 row step only ever appends trades built by mt5Trade. -/
theorem mt5Step_preserves (env : JsEnv)
    (P : Trade → Prop) (hP : ∀ vs, P (mt5Trade env vs))
    (st : Bool × Bool × List Trade) (row : Row) (h : ∀ t ∈ st.2.2, P t) :
    ∀ t ∈ (mt5Step env st row).2.2, P t := by
  intro t ht
  rcases mt5Step_trades env st row with heq | ⟨vs, heq⟩
  · exact h t (heq ▸ ht)
  · rw [heq] at ht
    rcases List.mem_append.1 ht with hmem | hmem
    · exact h t hmem
    · rcases List.mem_singleton.1 hmem with rfl
      exact hP _

/-- The MT5 fold preserves trade-wise properties of the accumulator. -/
theorem mt5_fold_preserves (env : JsEnv)
    (P : Trade → Prop) (hP : ∀ vs, P (mt5Trade env vs)) (rows : List Row) :
    ∀ st, (∀ t ∈ st.2.2, P t) → ∀ t ∈ (rows.foldl (mt5Step env) st).2.2, P t := by
  induction rows with
  | nil => intro st h; exact h
  | cons r rows ih =>
    intro st h
    exact ih _ (mt5Step_preserves env P hP st r h)

/-- C1: every Trade built by normalization, through the named-column
mapping, the 13-column (and 6-column) positional fallback, or the markup
Positions walk, carries netProfit equal to grossProfit plus commission
plus swap exactly. -/
theorem netProfit_decomposition :
    (∀ (env : JsEnv) (values : List String) (m : CMap),
      (mapColumnsToTrade env values m).netProfit =
        some ((mapColumnsToTrade env values m).profit +
          (mapColumnsToTrade env values m).commission +
          (mapColumnsToTrade env values m).swap)) ∧
    (∀ (env : JsEnv) (values : List String) (t : Trade),
      parseGenericCSVRow env values = some t →
        t.netProfit = some (t.profit + t.commission + t.swap)) ∧
    (∀ (env : JsEnv) (rows : List Row) (t : Trade),
      t ∈ parseMT5Report env rows →
        t.netProfit = some (t.profit + t.commission + t.swap)) := by
  refine ⟨fun env values m => by simp [mapColumnsToTrade], ?_, ?_⟩
  · intro env values t h
    rw [parseGenericCSVRow] at h
    split at h
    · rw [Option.some.injEq] at h
      subst h
      rfl
    · split at h
      · rw [Option.some.injEq] at h
        subst h
        simp
      · exact Option.noConfusion h
  · intro env rows t ht
    exact mt5_fold_preserves env
      (fun t => t.netProfit = some (t.profit + t.commission + t.swap))
      (fun vs => mt5Trade_netProfit env vs) rows (false, false, []) (by simp) t ht

unseal Rat.add Rat.mul Rat.inv Rat.sub in
/-- C1 witness: the decomposition at the concrete 13-column row gvals. -/
theorem netProfit_decomposition_witness :
    gTrade.netProfit = some (gTrade.profit + gTrade.commission + gTrade.swap) :=
  netProfit_decomposition.2.1 env0 gvals gTrade (by decide)

/-! ## Claim C2: equity curve shape and prefix sums -/

/-- The running-sum loop yields one point per trade. -/
theorem equityAux_length (e : ℚ) (ts : List Trade) :
    (equityAux e ts).length = ts.length := by
  induction ts generalizing e with
  | nil => rfl
  | cons t ts ih => simp [equityAux, ih]

/-- The i-th point of the running-sum loop holds the seed plus the sum of
the first i + 1 profits. -/
theorem equityAux_getD (e : ℚ) (ts : List Trade) (i : ℕ) (h : i < ts.length) :
    ((equityAux e ts).getD i dPoint).equity =
      e + ((ts.take (i + 1)).map getTradeProfit).sum := by
  induction ts generalizing e i with
  | nil => exact absurd h (by simp)
  | cons t ts ih =>
    cases i with
    | zero => simp [equityAux]
    | succ i =>
      have hi : i < ts.length := by simpa using h
      have := ih (e + getTradeProfit t) i hi
      simp only [equityAux, List.getD_cons_succ, List.take_succ_cons, List.map_cons,
        List.sum_cons] at this ⊢
      rw [this]
      ring

/-- C2: the equity curve has exactly one point per trade, and its i-th
point carries the sum of the net profits (getTradeProfit) of the first
i + 1 trades of the collection sorted ascending by closeTime. -/
theorem equity_curve_spec (trades : List Trade) :
    (getEquityCurve trades).length = trades.length ∧
    ∀ i, i < trades.length →
      ((getEquityCurve trades).getD i dPoint).equity =
        (((sortTradesByDate trades).take (i + 1)).map getTradeProfit).sum := by
  have hlen : (sortTradesByDate trades).length = trades.length :=
    (List.perm_insertionSort _ trades).length_eq
  constructor
  · rw [getEquityCurve, equityAux_length, hlen]
  · intro i hi
    have h2 : i < (sortTradesByDate trades).length := hlen ▸ hi
    have := equityAux_getD 0 (sortTradesByDate trades) i h2
    simpa [getEquityCurve] using this

unseal Rat.add Rat.mul Rat.inv Rat.sub in
/-- C2 witness: the first equity point of a concrete one-trade
collection. -/
theorem equity_curve_spec_witness :
    ((getEquityCurve [tOne]).getD 0 dPoint).equity =
      (((sortTradesByDate [tOne]).take 1).map getTradeProfit).sum :=
  (equity_curve_spec [tOne]).2 0 (by decide)

/-! ## Claim C3: max drawdown sign and zero characterisation -/

/-- The update idiom of the drawdown scan is a maximum. -/
theorem ite_lt_eq_max (a b : ℚ) : (if a < b then b else a) = max a b := by
  rcases lt_or_le a b with h | h
  · simp [h, max_eq_right h.le]
  · simp [not_lt.2 h, max_eq_left h]

/-- The running maximum of the drawdown scan never decreases. -/
theorem ddFold_fst_ge (l : List EquityPoint) :
    ∀ d p : ℚ, d ≤ (l.foldl ddStep (d, p)).1 := by
  induction l with
  | nil => intro d p; exact le_refl d
  | cons x l ih =>
    intro d p
    simp only [List.foldl_cons, ddStep]
    refine le_trans ?_ (ih _ _)
    rw [ite_lt_eq_max]
    exact le_max_left _ _

/-- The seed of the running maximum factors out of the scan. -/
theorem ddFold_fst_max (l : List EquityPoint) :
    ∀ d p : ℚ, 0 ≤ d →
      (l.foldl ddStep (d, p)).1 = max d ((l.foldl ddStep (0, p)).1) := by
  induction l with
  | nil => intro d p hd; simp [max_eq_left hd]
  | cons x l ih =>
    intro d p hd
    simp only [List.foldl_cons, ddStep, ite_lt_eq_max, max_self]
    have hdd : 0 ≤ max p x.equity - x.equity := by simp [le_max_iff]
    rw [ih (max d (max p x.equity - x.equity)) (max p x.equity)
        (le_trans hdd (le_max_right d _)),
      ih (max 0 (max p x.equity - x.equity)) (max p x.equity)
        (le_trans hdd (le_max_right 0 _)),
      max_eq_right hdd, max_assoc]

/-- A maximum of two nonnegative rationals vanishes only together. -/
theorem max_eq_zero_of_nonneg (a b : ℚ) (ha : 0 ≤ a) (hb : 0 ≤ b) :
    max a b = 0 ↔ a = 0 ∧ b = 0 := by
  constructor
  · intro h
    exact ⟨le_antisymm (h ▸ le_max_left a b) ha, le_antisymm (h ▸ le_max_right a b) hb⟩
  · rintro ⟨rfl, rfl⟩
    simp

/-- The drawdown scan from a zero seed vanishes exactly when the
equities never drop below the running peak, that is, when the sequence
seeded by p is a nondecreasing chain. -/
theorem ddFold_zero_iff (l : List EquityPoint) :
    ∀ p : ℚ, (l.foldl ddStep (0, p)).1 = 0 ↔
      List.Chain (· ≤ ·) p (l.map EquityPoint.equity) := by
  induction l with
  | nil => intro p; simp
  | cons x l ih =>
    intro p
    simp only [List.foldl_cons, ddStep, ite_lt_eq_max, List.map_cons, List.chain_cons]
    have hdd : 0 ≤ max p x.equity - x.equity := by simp [le_max_iff]
    rw [max_eq_right hdd,
      ddFold_fst_max l (max p x.equity - x.equity) (max p x.equity) hdd,
      max_eq_zero_of_nonneg _ _ hdd (ddFold_fst_ge l 0 (max p x.equity)), sub_eq_zero]
    constructor
    · rintro ⟨h1, h2⟩
      have hple : p ≤ x.equity := h1 ▸ le_max_left p x.equity
      rw [h1] at h2
      exact ⟨hple, (ih x.equity).1 h2⟩
    · rintro ⟨h1, h2⟩
      rw [max_eq_right h1]
      exact ⟨rfl, (ih x.equity).2 h2⟩

/-- C3: max drawdown is nonnegative, and it is zero exactly when the
equity curve is nondecreasing throughout. -/
theorem drawdown_spec (trades : List Trade) :
    0 ≤ getMaxDrawdown trades ∧
    (getMaxDrawdown trades = 0 ↔
      List.Chain' (· ≤ ·) ((getEquityCurve trades).map EquityPoint.equity)) := by
  cases h : getEquityCurve trades with
  | nil => simp [getMaxDrawdown, h]
  | cons p0 rest =>
    have hstep : ((p0 :: rest).foldl ddStep (0, p0.equity)).1 =
        (rest.foldl ddStep (0, p0.equity)).1 := by
      simp [List.foldl_cons, ddStep, lt_irrefl]
    rw [getMaxDrawdown, h]
    simp only [hstep]
    refine ⟨ddFold_fst_ge rest 0 p0.equity, ?_⟩
    rw [ddFold_zero_iff rest p0.equity]
    simp [List.Chain']

/-! ## Claim C4: streak counter invariants -/

/-- After folding any trade list, the running win and lose counters can
never both be nonzero, provided they were not both nonzero to start. -/
theorem streak_counters_exclusive (l : List Trade) :
    ∀ s1 s2 : ℕ × ℕ, (s1.2 = 0 ∨ s2.2 = 0) →
      (l.foldl winStep s1).2 = 0 ∨ (l.foldl loseStep s2).2 = 0 := by
  induction l with
  | nil => intro s1 s2 h; exact h
  | cons t l ih =>
    intro s1 s2 h
    simp only [List.foldl_cons]
    rcases lt_trichotomy (getTradeProfit t) 0 with hneg | hz | hpos
    · exact ih _ _ (Or.inl (by simp [winStep, not_lt.2 hneg.le, hneg.ne]))
    · exact ih _ _ (Or.inl (by simp [winStep, hz]))
    · exact ih _ _ (Or.inr (by simp [loseStep, not_lt.2 hpos.le, hpos.ne.symm]))

/-- C4: at every trade boundary of the chronological scan the running
win-streak and lose-streak counters are never both nonzero, and a
breakeven trade at position k resets both counters to zero. -/
theorem streak_invariants (trades : List Trade) (k : ℕ) :
    (winStreakAt trades k = 0 ∨ loseStreakAt trades k = 0) ∧
    (∀ t, (sortTradesByDate trades)[k]? = some t → getTradeProfit t = 0 →
      winStreakAt trades (k + 1) = 0 ∧ loseStreakAt trades (k + 1) = 0) := by
  constructor
  · exact streak_counters_exclusive _ (0, 0) (0, 0) (Or.inl rfl)
  · intro t hget hzero
    have htake : (sortTradesByDate trades).take (k + 1) =
        (sortTradesByDate trades).take k ++ [t] := by
      rw [List.take_succ, hget]
      rfl
    constructor
    · rw [winStreakAt, htake, List.foldl_append]
      simp [winStep, hzero]
    · rw [loseStreakAt, htake, List.foldl_append]
      simp [loseStep, hzero]

unseal Rat.add Rat.mul Rat.inv Rat.sub in
/-- C4 witness: a concrete breakeven trade resets both counters. -/
theorem streak_invariants_witness :
    winStreakAt [tZero] 1 = 0 ∧ loseStreakAt [tZero] 1 = 0 :=
  (streak_invariants [tZero] 0).2 tZero (by decide) (by decide)

/-! ## Claim C5: profit factor and risk-reward sentinels -/

/-- A nonempty list of positive rationals has positive sum. -/
theorem sum_pos_of_all_pos {l : List ℚ} (hne : l ≠ []) (h : ∀ x ∈ l, 0 < x) :
    0 < l.sum := by
  cases l with
  | nil => exact absurd rfl hne
  | cons x xs =>
    rw [List.sum_cons]
    have hx := h x (by simp)
    have hxs : 0 ≤ xs.sum := List.sum_nonneg (fun y hy => (h y (by simp [hy])).le)
    linarith

/-- A list of nonpositive rationals has nonpositive sum. -/
theorem sum_nonpos_of_all_nonpos {l : List ℚ} (h : ∀ x ∈ l, x ≤ 0) : l.sum ≤ 0 := by
  induction l with
  | nil => simp
  | cons x xs ih =>
    rw [List.sum_cons]
    have hx := h x (by simp)
    have hxs := ih (fun y hy => h y (by simp [hy]))
    linarith

/-- A nonempty list of negative rationals has negative sum. -/
theorem sum_neg_of_all_neg {l : List ℚ} (hne : l ≠ []) (h : ∀ x ∈ l, x < 0) :
    l.sum < 0 := by
  cases l with
  | nil => exact absurd rfl hne
  | cons x xs =>
    rw [List.sum_cons]
    have hx := h x (by simp)
    have hxs : xs.sum ≤ 0 := sum_nonpos_of_all_nonpos (fun y hy => (h y (by simp [hy])).le)
    linarith

/-- The winning filter is nonempty exactly when a winning trade exists. -/
theorem winning_ne_nil_iff (trades : List Trade) :
    getWinningTrades trades ≠ [] ↔ hasWin trades := by
  constructor
  · intro h
    rcases List.exists_mem_of_ne_nil _ h with ⟨t, ht⟩
    rw [getWinningTrades, List.mem_filter] at ht
    exact ⟨t, ht.1, of_decide_eq_true ht.2⟩
  · rintro ⟨t, ht, hp⟩
    exact List.ne_nil_of_mem (List.mem_filter.2 ⟨ht, decide_eq_true hp⟩)

/-- The losing filter is nonempty exactly when a losing trade exists. -/
theorem losing_ne_nil_iff (trades : List Trade) :
    getLosingTrades trades ≠ [] ↔ hasLoss trades := by
  constructor
  · intro h
    rcases List.exists_mem_of_ne_nil _ h with ⟨t, ht⟩
    rw [getLosingTrades, List.mem_filter] at ht
    exact ⟨t, ht.1, of_decide_eq_true ht.2⟩
  · rintro ⟨t, ht, hp⟩
    exact List.ne_nil_of_mem (List.mem_filter.2 ⟨ht, decide_eq_true hp⟩)

/-- The gross win total is positive exactly when a winning trade exists. -/
theorem totalWins_pos_iff (trades : List Trade) :
    0 < ((getWinningTrades trades).map getTradeProfit).sum ↔ hasWin trades := by
  have hall : ∀ x ∈ (getWinningTrades trades).map getTradeProfit, 0 < x := by
    intro x hx
    rcases List.mem_map.1 hx with ⟨t, ht, rfl⟩
    rw [getWinningTrades, List.mem_filter] at ht
    exact of_decide_eq_true ht.2
  constructor
  · intro h
    by_contra hno
    rw [← winning_ne_nil_iff, not_not] at hno
    rw [hno] at h
    simp at h
  · intro h
    refine sum_pos_of_all_pos ?_ hall
    have := (winning_ne_nil_iff trades).2 h
    simpa using this

/-- The gross win total is nonnegative. -/
theorem totalWins_nonneg (trades : List Trade) :
    0 ≤ ((getWinningTrades trades).map getTradeProfit).sum := by
  refine List.sum_nonneg ?_
  intro x hx
  rcases List.mem_map.1 hx with ⟨t, ht, rfl⟩
  rw [getWinningTrades, List.mem_filter] at ht
  exact (of_decide_eq_true ht.2).le

/-- The absolute gross loss total vanishes exactly when no losing trade
exists. -/
theorem totalLosses_eq_zero_iff (trades : List Trade) :
    |((getLosingTrades trades).map getTradeProfit).sum| = 0 ↔ ¬hasLoss trades := by
  rw [abs_eq_zero, ← losing_ne_nil_iff, not_not]
  constructor
  · intro h
    by_contra hne
    have hneg : ((getLosingTrades trades).map getTradeProfit).sum < 0 := by
      refine sum_neg_of_all_neg ?_ ?_
      · simpa using hne
      · intro x hx
        rcases List.mem_map.1 hx with ⟨t, ht, rfl⟩
        rw [getLosingTrades, List.mem_filter] at ht
        exact of_decide_eq_true ht.2
    exact absurd h hneg.ne
  · intro h
    rw [h]
    simp

/-- The average win is positive exactly when a winning trade exists, and
is nonnegative always. -/
theorem avgWin_pos_iff (trades : List Trade) :
    (0 < getAverageWin trades ↔ hasWin trades) ∧ 0 ≤ getAverageWin trades := by
  rw [getAverageWin]
  by_cases h : (getWinningTrades trades).length = 0
  · rw [if_pos h]
    have : ¬hasWin trades := by
      rw [← winning_ne_nil_iff, not_not]
      exact List.length_eq_zero.1 h
    simp [this]
  · rw [if_neg h]
    have hne : getWinningTrades trades ≠ [] := fun hc => h (by simp [hc])
    have hw : hasWin trades := (winning_ne_nil_iff trades).1 hne
    have hpos : 0 < ((getWinningTrades trades).map getTradeProfit).sum :=
      (totalWins_pos_iff trades).2 hw
    have hlen : (0 : ℚ) < (getWinningTrades trades).length := by
      exact_mod_cast Nat.pos_of_ne_zero h
    exact ⟨⟨fun _ => hw, fun _ => div_pos hpos hlen⟩, (div_pos hpos hlen).le⟩

/-- The absolute average loss vanishes exactly when no losing trade
exists. -/
theorem avgLoss_abs_eq_zero_iff (trades : List Trade) :
    |getAverageLoss trades| = 0 ↔ ¬hasLoss trades := by
  rw [getAverageLoss, abs_eq_zero]
  by_cases h : (getLosingTrades trades).length = 0
  · rw [if_pos h]
    have : ¬hasLoss trades := by
      rw [← losing_ne_nil_iff, not_not]
      exact List.length_eq_zero.1 h
    simp [this]
  · rw [if_neg h]
    have hne : getLosingTrades trades ≠ [] := fun hc => h (by simp [hc])
    have hl : hasLoss trades := (losing_ne_nil_iff trades).1 hne
    have hneg : ((getLosingTrades trades).map getTradeProfit).sum < 0 := by
      refine sum_neg_of_all_neg ?_ ?_
      · simpa using hne
      · intro x hx
        rcases List.mem_map.1 hx with ⟨t, ht, rfl⟩
        rw [getLosingTrades, List.mem_filter] at ht
        exact of_decide_eq_true ht.2
    have hlen : (0 : ℚ) < (getLosingTrades trades).length := by
      exact_mod_cast Nat.pos_of_ne_zero h
    have : ((getLosingTrades trades).map getTradeProfit).sum /
        (getLosingTrades trades).length < 0 := div_neg_of_neg_of_pos hneg hlen
    simp only [hl, not_true_eq_false, iff_false]
    exact this.ne

/-- C5 amended: both ratios report the infinite sentinel exactly when a
winning trade exists and no losing trade exists; both report the value
zero exactly when no winning trade exists (so also, but not only, when
there are neither winners nor losers); being total functions into the
sentinel-extended rationals they never yield an error or a non-number. -/
theorem ratio_sentinels (trades : List Trade) :
    (getProfitFactor trades = PFVal.inf ↔ hasWin trades ∧ ¬hasLoss trades) ∧
    (getProfitFactor trades = PFVal.val 0 ↔ ¬hasWin trades) ∧
    (getRiskReward trades = PFVal.inf ↔ hasWin trades ∧ ¬hasLoss trades) ∧
    (getRiskReward trades = PFVal.val 0 ↔ ¬hasWin trades) := by
  have hW := totalWins_pos_iff trades
  have hWnn := totalWins_nonneg trades
  have hL := totalLosses_eq_zero_iff trades
  have hAW := avgWin_pos_iff trades
  have hAL := avgLoss_abs_eq_zero_iff trades
  have habs : (0 : ℚ) ≤ |((getLosingTrades trades).map getTradeProfit).sum| := abs_nonneg _
  have habs2 : (0 : ℚ) ≤ |getAverageLoss trades| := abs_nonneg _
  refine ⟨?_, ?_, ?_, ?_⟩
  · rw [getProfitFactor]
    split
    · next hz =>
      rw [hz] at hL
      split
      · next hp => simp [hW.1 hp, (hL.1 rfl)]
      · next hp =>
        simp only [reduceCtorEq, false_iff]
        intro hc
        exact hp (hW.2 hc.1)
    · next hz =>
      simp only [reduceCtorEq, false_iff]
      intro hc
      exact hz (hL.2 hc.2)
  · rw [getProfitFactor]
    split
    · next hz =>
      split
      · next hp => simp [hW.1 hp]
      · next hp =>
        simp only [PFVal.val.injEq, true_iff]
        intro hc
        exact hp (hW.2 hc)
    · next hz =>
      rw [PFVal.val.injEq, div_eq_zero_iff]
      constructor
      · rintro (h0 | h0)
        · intro hc
          exact absurd h0 (hW.2 hc).ne.symm
        · exact absurd h0 hz
      · intro hc
        left
        exact le_antisymm (by rcases lt_or_eq_of_le hWnn with h | h; exact absurd (hW.1 h) hc; exact h.ge) hWnn
  · rw [getRiskReward]
    split
    · next hz =>
      rw [hz] at hAL
      split
      · next hp => simp [hAW.1.1 hp, hAL.1 rfl]
      · next hp =>
        simp only [reduceCtorEq, false_iff]
        intro hc
        exact hp (hAW.1.2 hc.1)
    · next hz =>
      simp only [reduceCtorEq, false_iff]
      intro hc
      exact hz (hAL.2 hc.2)
  · rw [getRiskReward]
    split
    · next hz =>
      split
      · next hp => simp [hAW.1.1 hp]
      · next hp =>
        simp only [PFVal.val.injEq, true_iff]
        intro hc
        exact hp (hAW.1.2 hc)
    · next hz =>
      rw [PFVal.val.injEq, div_eq_zero_iff]
      constructor
      · rintro (h0 | h0)
        · intro hc
          exact absurd h0 (hAW.1.2 hc).ne.symm
        · exact absurd h0 hz
      · intro hc
        left
        exact le_antisymm (by rcases lt_or_eq_of_le hAW.2 with h | h; exact absurd (hAW.1.1 h) hc; exact h.ge) hAW.2

unseal Rat.add Rat.mul Rat.inv Rat.sub in
/-- C5 counterexample: a collection with one losing trade and no winning
trade makes both ratios return the zero value even though a losing trade
is present, refuting that the zero sentinel appears exactly when there
are neither winning nor losing trades. -/
theorem ratio_sentinels_counterexample :
    getProfitFactor [tLoss] = PFVal.val 0 ∧ getRiskReward [tLoss] = PFVal.val 0 ∧
      getTradeProfit tLoss < 0 ∧ tLoss ∈ [tLoss] := by
  refine ⟨by decide, by decide, by decide, by decide⟩

/-! ## Claim C6: schema-inference acceptance criteria -/

/-- C6 amended: the delimited-text inference accepts exactly when both
the symbol and the profit fields were resolved (and any accepted map has
them); the markup inference instead accepts exactly when at least three
fields were resolved, regardless of which. -/
theorem schema_acceptance :
    (∀ (header : String) (m : CMap), detectCSVColumns header = some m →
      m.symbol.isSome = true ∧ m.profit.isSome = true) ∧
    (∀ header : String, (detectCSVColumns header).isSome = true ↔
      (buildCSVMap (parseCSVLine header)).symbol.isSome = true ∧
        (buildCSVMap (parseCSVLine header)).profit.isSome = true) ∧
    (∀ values : List String, (detectHTMLColumns values).isSome = true ↔
      3 ≤ cmapKeysCount (buildHTMLMap values)) := by
  refine ⟨?_, ?_, ?_⟩
  · intro header m h
    rw [detectCSVColumns] at h
    split at h
    · next hc =>
      rw [Option.some.injEq] at h
      subst h
      exact ⟨hc.1, hc.2⟩
    · exact Option.noConfusion h
  · intro header
    rw [detectCSVColumns]
    split
    · next hc => simpa using hc
    · next hc => simpa using hc
  · intro values
    rw [detectHTMLColumns]
    split
    · next hc => simpa using hc
    · next hc => simpa using hc

unseal Rat.add Rat.mul Rat.inv Rat.sub in
/-- C6 witness: a concrete header whose delimited-text inference is
accepted, applied through the acceptance theorem. -/
theorem schema_acceptance_witness :
    (buildCSVMap (parseCSVLine "symbol,profit")).symbol.isSome = true ∧
      (buildCSVMap (parseCSVLine "symbol,profit")).profit.isSome = true :=
  schema_acceptance.1 "symbol,profit" (buildCSVMap (parseCSVLine "symbol,profit")) (by decide)

unseal Rat.add Rat.mul Rat.inv Rat.sub in
/-- C6 counterexample: the markup path accepts the header cells type,
volume, entry (four fields resolve: type, volume, open time, open price)
although neither the symbol nor the profit field was resolved, refuting
the claim for the markup header-inference path. -/
theorem schema_acceptance_counterexample :
    (detectHTMLColumns ["type", "volume", "entry"]).map
        (fun m => (m.symbol, m.profit, cmapKeysCount m)) =
      some (none, none, 4) := by
  decide

/-! ## Claim C7: side normalization -/

/-- A list is a prefix of itself. -/
theorem isPrefixL_self (cs : List Char) : isPrefixL cs cs = true := by
  induction cs with
  | nil => rfl
  | cons c r ih => simp [isPrefixL, ih]

/-- A list contains itself as a substring. -/
theorem containsSubL_self (cs : List Char) : containsSubL cs cs = true := by
  cases cs with
  | nil => rfl
  | cons c r => simp [containsSubL, isPrefixL_self]

/-- C7 amended: normalization returns sell exactly when the lower-cased
trimmed token contains sell, contains short, or is exactly the digit one;
every other token yields buy. -/
theorem normalizeType_spec (v : String) :
    (normalizeType v = "sell" ↔
      strContainsCS (jsTrim (jsLower v)) "sell" = true ∨
      strContainsCS (jsTrim (jsLower v)) "short" = true ∨
      jsTrim (jsLower v) = "1") ∧
    (normalizeType v = "sell" ∨ normalizeType v = "buy") := by
  rw [normalizeType]
  split
  · next hc =>
    simp only [Bool.or_eq_true, beq_iff_eq] at hc
    refine ⟨⟨fun _ => ?_, fun _ => rfl⟩, Or.inl rfl⟩
    rcases hc with ((h | h) | h) | h
    · exact Or.inl h
    · exact Or.inr (Or.inl h)
    · left
      rw [strContainsCS, h]
      exact containsSubL_self _
    · exact Or.inr (Or.inr h)
  · next hc =>
    simp only [Bool.or_eq_true, beq_iff_eq, not_or] at hc
    refine ⟨?_, Or.inr rfl⟩
    constructor
    · intro h
      exact absurd h (by decide)
    · rintro (h | h | h)
      · exact absurd h (by simpa using hc.1.1.1)
      · exact absurd h (by simpa using hc.1.1.2)
      · exact absurd h hc.2

unseal Rat.add Rat.mul Rat.inv Rat.sub in
/-- C7 counterexample: the token consisting of the digit one maps to
sell although it contains neither sell nor short, refuting the claim
that every token without those substrings yields buy. -/
theorem normalizeType_counterexample :
    normalizeType "1" = "sell" ∧ strContainsCI "1" "sell" = false ∧
      strContainsCI "1" "short" = false := by
  decide

/-! ## Claim C8: encoding detection policy -/

/-- A defaulted list read is either the default or a member. -/
theorem getD_default_or_mem (l : List ℕ) (i : ℕ) :
    l.getD i 0 = 0 ∨ l.getD i 0 ∈ l := by
  by_cases h : i < l.length
  · right
    rw [List.getD_eq_getElem l 0 h]
    exact List.getElem_mem h
  · left
    exact List.getD_eq_default l 0 (le_of_not_lt h)

/-- A buffer of printable ASCII bytes has an empty BOM-less sample. -/
theorem utf16Count_ascii (bytes : List ℕ) (h : ∀ b ∈ bytes, 32 ≤ b ∧ b ≤ 126) :
    utf16Count bytes = 0 := by
  rw [utf16Count, List.countP_eq_zero]
  intro k _
  by_contra hp
  simp only [Bool.not_eq_false, Bool.and_eq_true, decide_eq_true_eq] at hp
  obtain ⟨⟨h1, _⟩, h3⟩ := hp
  have hmem : bytes.getD (2 * k + 1) 0 ∈ bytes := by
    rcases getD_default_or_mem bytes (2 * k + 1) with hz | hm
    · rw [List.getD_eq_getElem bytes 0 h1] at hz ⊢
      rw [hz]
      exact absurd hz (by
        have := h (bytes[2 * k + 1]) (List.getElem_mem h1)
        omega)
    · exact hm
  have := h _ hmem
  omega

/-- C8: the encoding decision follows the three-tier policy, and in
particular a buffer of printable ASCII bytes (no BOM, no
alternating-zero pattern) decodes as 8-bit text. -/
theorem detect_encoding_spec (bytes : List ℕ) :
    (bytes.getD 0 0 = 255 ∧ bytes.getD 1 0 = 254 → detectEncoding bytes = Enc.utf16le) ∧
    (¬(bytes.getD 0 0 = 255 ∧ bytes.getD 1 0 = 254) →
      bytes.getD 0 0 = 254 ∧ bytes.getD 1 0 = 255 → detectEncoding bytes = Enc.utf16be) ∧
    (¬(bytes.getD 0 0 = 255 ∧ bytes.getD 1 0 = 254) →
      ¬(bytes.getD 0 0 = 254 ∧ bytes.getD 1 0 = 255) →
      (20 < utf16Count bytes → detectEncoding bytes = Enc.utf16le) ∧
      (utf16Count bytes ≤ 20 → detectEncoding bytes = Enc.utf8)) ∧
    ((∀ b ∈ bytes, 32 ≤ b ∧ b ≤ 126) → detectEncoding bytes = Enc.utf8) := by
  refine ⟨?_, ?_, ?_, ?_⟩
  · intro h
    rw [detectEncoding, if_pos h]
  · intro h1 h2
    rw [detectEncoding, if_neg h1, if_pos h2]
  · intro h1 h2
    constructor
    · intro h3
      rw [detectEncoding, if_neg h1, if_neg h2, if_pos h3]
    · intro h3
      rw [detectEncoding, if_neg h1, if_neg h2, if_neg (not_lt.2 h3)]
  · intro h
    have hb0 : ¬(bytes.getD 0 0 = 255 ∧ bytes.getD 1 0 = 254) := by
      rintro ⟨hx, -⟩
      rcases getD_default_or_mem bytes 0 with hz | hm
      · omega
      · have := h _ hm
        omega
    have hb1 : ¬(bytes.getD 0 0 = 254 ∧ bytes.getD 1 0 = 255) := by
      rintro ⟨hx, -⟩
      rcases getD_default_or_mem bytes 0 with hz | hm
      · omega
      · have := h _ hm
        omega
    rw [detectEncoding, if_neg hb0, if_neg hb1,
      if_neg (by rw [utf16Count_ascii bytes h]; omega)]

unseal Rat.add Rat.mul Rat.inv Rat.sub in
/-- C8 witness: the policy at two concrete buffers, a three-byte ASCII
text and an FF FE byte-order mark. -/
theorem detect_encoding_spec_witness :
    detectEncoding [97, 98, 99] = Enc.utf8 ∧ detectEncoding [255, 254] = Enc.utf16le :=
  ⟨(detect_encoding_spec [97, 98, 99]).2.2.2 (by decide),
   (detect_encoding_spec [255, 254]).1 (by decide)⟩

/-! ## Claim C9: zero recovered trades is a loud failure -/

/-- C9: whenever the delimited-text or the markup pipeline returns a
success, the returned trade collection is nonempty; zero recovered
trades always surfaces as the no-trades error instead. -/
theorem no_silent_empty :
    (∀ (env : JsEnv) (content : String) (l : List Trade),
      parseCSV env content = .ok l → l ≠ []) ∧
    (∀ (env : JsEnv) (doc : List (List Row)) (l : List Trade),
      parseHTML env doc = .ok l → l ≠ []) := by
  constructor
  · intro env content l h
    rw [parseCSV] at h
    dsimp only at h
    repeat' split at h
    all_goals try exact Except.noConfusion h
    all_goals
      rename_i hne
      rw [Except.ok.injEq] at h
      subst h
      intro hc
      rw [hc] at hne
      simp at hne
  · intro env doc l h
    rw [parseHTML] at h
    dsimp only at h
    split at h
    · next hpos =>
      rw [Except.ok.injEq] at h
      subst h
      exact List.ne_nil_of_length_pos hpos
    · split at h
      · exact Except.noConfusion h
      · next hne =>
        rw [Except.ok.injEq] at h
        subst h
        intro hc
        rw [hc] at hne
        simp at hne

unseal Rat.add Rat.mul Rat.inv Rat.sub in
/-- C9 witness: both pipelines succeed on concrete inputs, and the
theorem turns those successes into nonempty collections. -/
theorem no_silent_empty_witness :
    ([csvTradeFix] : List Trade) ≠ [] ∧ ([htmlTradeFix] : List Trade) ≠ [] :=
  ⟨no_silent_empty.1 env0 csvFix [csvTradeFix] (by decide),
   no_silent_empty.2 env0 htmlDocFix [htmlTradeFix] (by decide)⟩

/-! ## Claim C10: histogram bins are half-open and drop the maximum -/

/-- The bounded square-root search never moves below its start. -/
theorem ceilSqrtAux_ge (n : ℕ) : ∀ fuel k, k ≤ ceilSqrtAux n fuel k := by
  intro fuel
  induction fuel with
  | zero =>
    intro k
    rw [ceilSqrtAux]
    split <;> exact le_refl k
  | succ f ih =>
    intro k
    rw [ceilSqrtAux]
    split
    · exact le_refl k
    · exact le_trans (Nat.le_succ k) (ih (k + 1))

/-- The ceiling square root of a positive number is positive. -/
theorem one_le_ceilSqrtN (n : ℕ) (h : 1 ≤ n) : 1 ≤ ceilSqrtN n := by
  cases n with
  | zero => omega
  | succ f =>
    have hstep : ceilSqrtN (f + 1) =
        if f + 1 ≤ 0 then 0 else ceilSqrtAux (f + 1) f 1 := rfl
    rw [hstep, if_neg (by omega)]
    exact ceilSqrtAux_ge (f + 1) f 1

/-- The histogram bin count of a nonempty collection is positive. -/
theorem one_le_binCountOf (n : ℕ) (h : 1 ≤ n) : 1 ≤ binCountOf n := by
  rw [binCountOf]
  have := one_le_ceilSqrtN n h
  omega

/-- countP as a sum of indicators. -/
theorem countP_eq_sum_map {α : Type} (p : α → Bool) (l : List α) :
    l.countP p = (l.map (fun a => if p a then 1 else 0)).sum := by
  induction l with
  | nil => rfl
  | cons x xs ih =>
    by_cases h : p x <;> simp [List.countP_cons, h, ih, Nat.add_comm]

/-- Pointwise sums of naturals split over a map. -/
theorem sum_map_add {α : Type} (f g : α → ℕ) (l : List α) :
    (l.map (fun a => f a + g a)).sum = (l.map f).sum + (l.map g).sum := by
  induction l with
  | nil => rfl
  | cons x xs ih =>
    simp [List.map_cons, List.sum_cons, ih]
    omega

/-- Double list sums of naturals commute. -/
theorem sum_map_swap {α β : Type} (f : α → β → ℕ) (L1 : List α) (L2 : List β) :
    (L1.map (fun i => (L2.map (f i)).sum)).sum =
      (L2.map (fun p => (L1.map (fun i => f i p)).sum)).sum := by
  induction L1 with
  | nil => simp
  | cons i L1 ih =>
    simp only [List.map_cons, List.sum_cons, ih, ← sum_map_add]

/-- On a duplicate-free list, a predicate with a unique satisfying value
is counted at most once. -/
theorem count_le_one_of_unique (P : ℕ → Bool) (l : List ℕ) (hnd : l.Nodup)
    (huniq : ∀ i j, P i = true → P j = true → i = j) : l.countP P ≤ 1 := by
  induction l with
  | nil => simp
  | cons x xs ih =>
    rw [List.countP_cons]
    rcases List.nodup_cons.1 hnd with ⟨hx, hxs⟩
    by_cases h : P x = true
    · have hzero : xs.countP P = 0 := by
        rw [List.countP_eq_zero]
        intro j hj hPj
        exact hx ((huniq x j h hPj) ▸ hj)
      simp [h, hzero]
    · simp only [h, if_false]
      simpa using ih hxs

/-- Two half-open uniform bins sharing a point coincide. -/
theorem bin_unique (minP s : ℚ) (hs : 0 < s) (p : ℚ) (i j : ℕ)
    (hi : minP + i * s ≤ p ∧ p < minP + i * s + s)
    (hj : minP + j * s ≤ p ∧ p < minP + j * s + s) : i = j := by
  by_contra hne
  rcases Nat.lt_or_ge i j with h | h
  · have hij : (i : ℚ) + 1 ≤ j := by exact_mod_cast h
    have hm := mul_le_mul_of_nonneg_right hij hs.le
    nlinarith [hi.2, hj.1]
  · have hji : (j : ℚ) + 1 ≤ i := by
      have : j < i := lt_of_le_of_ne h (fun hc => hne hc.symm)
      exact_mod_cast this
    have hm := mul_le_mul_of_nonneg_right hji hs.le
    nlinarith [hj.2, hi.1]

/-- The observed maximum lies in none of the half-open bins. -/
theorem max_not_in_bin (minP maxP s : ℚ) (B : ℕ) (hs : 0 ≤ s)
    (hBs : (B : ℚ) * s = maxP - minP) (i : ℕ) (hi : i < B) :
    ¬(minP + i * s ≤ maxP ∧ maxP < minP + i * s + s) := by
  rintro ⟨h1, h2⟩
  have hiB : (i : ℚ) + 1 ≤ B := by exact_mod_cast hi
  have hm := mul_le_mul_of_nonneg_right hiB hs
  nlinarith

/-- Each profit contributes to at most one bin indicator. -/
theorem bins_indicator_le_one (minP s : ℚ) (hs : 0 < s) (B : ℕ) (p : ℚ) :
    ((List.range B).map
      (fun (i : ℕ) => if (decide (minP + (i : ℚ) * s ≤ p) &&
        decide (p < minP + (i : ℚ) * s + s)) = true then 1 else 0)).sum ≤ 1 := by
  rw [← countP_eq_sum_map]
  refine count_le_one_of_unique _ _ (List.nodup_range B) ?_
  intro i j hi hj
  simp only [Bool.and_eq_true, decide_eq_true_eq] at hi hj
  exact bin_unique minP s hs p i j hi hj

/-- The observed maximum contributes to no bin indicator. -/
theorem bins_indicator_max_zero (minP maxP s : ℚ) (hs : 0 ≤ s) (B : ℕ)
    (hBs : (B : ℚ) * s = maxP - minP) :
    ((List.range B).map
      (fun (i : ℕ) => if (decide (minP + (i : ℚ) * s ≤ maxP) &&
        decide (maxP < minP + (i : ℚ) * s + s)) = true then 1 else 0)).sum = 0 := by
  rw [← countP_eq_sum_map, List.countP_eq_zero]
  intro i hi
  simp only [Bool.and_eq_true, decide_eq_true_eq, not_and]
  intro h1 h2
  exact max_not_in_bin minP maxP s B hs hBs i (List.mem_range.1 hi) ⟨h1, h2⟩

/-- A map bounded by one sums to at most the length. -/
theorem sum_map_le_length (g : ℚ → ℕ) (l : List ℚ) (hg : ∀ p, g p ≤ 1) :
    (l.map g).sum ≤ l.length := by
  induction l with
  | nil => simp
  | cons x xs ih =>
    simp only [List.map_cons, List.sum_cons, List.length_cons]
    have := hg x
    omega

/-- A map bounded by one that vanishes on some member sums to strictly
less than the length. -/
theorem sum_map_lt_length (g : ℚ → ℕ) (l : List ℚ) (x : ℚ) (hx : x ∈ l)
    (hg : ∀ p, g p ≤ 1) (hx0 : g x = 0) : (l.map g).sum < l.length := by
  obtain ⟨l1, l2, rfl⟩ := List.append_of_mem hx
  rw [List.map_append, List.sum_append, List.map_cons, List.sum_cons, hx0]
  have h1 := sum_map_le_length g l1 hg
  have h2 := sum_map_le_length g l2 hg
  simp only [List.length_append, List.length_cons]
  omega

/-- A left fold of max lands on its seed or in the list. -/
theorem foldl_max_mem (xs : List ℚ) : ∀ x, xs.foldl max x ∈ x :: xs := by
  induction xs with
  | nil => intro x; simp
  | cons y ys ih =>
    intro x
    have := ih (max x y)
    rcases max_choice x y with hc | hc <;>
      rcases List.mem_cons.1 this with h | h <;>
      simp only [List.foldl_cons] <;>
      rw [hc] at h ⊢ <;> simp [h]

/-- The spread maximum of a nonempty list is attained. -/
theorem listMaxQ_mem (l : List ℚ) (h : l ≠ []) : listMaxQ l ∈ l := by
  cases l with
  | nil => exact absurd rfl h
  | cons x xs =>
    rw [listMaxQ]
    exact foldl_max_mem xs x

/-- C10: the histogram counts each bin over the half-open interval from
binStart up to but excluding binEnd; hence on any nonempty collection
whose maximum profit strictly exceeds its minimum, the maximum lies in
no bin and the bin counts sum to strictly less than the number of
trades. -/
theorem pnl_histogram_spec (trades : List Trade) (hne : trades ≠ [])
    (hlt : pnlMin trades < pnlMax trades) :
    (∀ i, i < binCountOf (pnlProfits trades).length →
      ¬(pnlMin trades + (i : ℚ) * pnlBinSize trades ≤ pnlMax trades ∧
        pnlMax trades < pnlMin trades + (i : ℚ) * pnlBinSize trades + pnlBinSize trades)) ∧
    (getPnLDistribution trades).sum < trades.length := by
  have hpne : pnlProfits trades ≠ [] := by
    rw [pnlProfits]
    simpa using hne
  have hNpos : 1 ≤ (pnlProfits trades).length := List.length_pos.2 hpne
  have hB := one_le_binCountOf _ hNpos
  have hBQ : (0 : ℚ) < (binCountOf (pnlProfits trades).length : ℚ) := by exact_mod_cast hB
  have hs : 0 < pnlBinSize trades := by
    rw [pnlBinSize]
    exact div_pos (sub_pos.2 hlt) hBQ
  have hBs : ((binCountOf (pnlProfits trades).length : ℕ) : ℚ) * pnlBinSize trades =
      pnlMax trades - pnlMin trades := by
    rw [pnlBinSize]
    exact mul_div_cancel₀ _ hBQ.ne.symm
  constructor
  · intro i hi
    exact max_not_in_bin _ _ _ _ hs.le hBs i hi
  · have hunfold : getPnLDistribution trades =
        (List.range (binCountOf (pnlProfits trades).length)).map
          (fun (i : ℕ) => (pnlProfits trades).countP
            (fun p => decide (pnlMin trades + (i : ℚ) * pnlBinSize trades ≤ p) &&
              decide (p < pnlMin trades + (i : ℚ) * pnlBinSize trades + pnlBinSize trades))) := by
      rw [getPnLDistribution]
      rw [if_neg (by simpa [List.isEmpty_iff] using hpne)]
    rw [hunfold]
    have hswap := sum_map_swap
      (fun (i : ℕ) (p : ℚ) => if (decide (pnlMin trades + (i : ℚ) * pnlBinSize trades ≤ p) &&
        decide (p < pnlMin trades + (i : ℚ) * pnlBinSize trades + pnlBinSize trades)) = true
        then 1 else 0)
      (List.range (binCountOf (pnlProfits trades).length)) (pnlProfits trades)
    have hcount : ((List.range (binCountOf (pnlProfits trades).length)).map
        (fun (i : ℕ) => (pnlProfits trades).countP
          (fun p => decide (pnlMin trades + (i : ℚ) * pnlBinSize trades ≤ p) &&
            decide (p < pnlMin trades + (i : ℚ) * pnlBinSize trades + pnlBinSize trades)))).sum =
        ((pnlProfits trades).map (fun (p : ℚ) =>
          ((List.range (binCountOf (pnlProfits trades).length)).map
            (fun (i : ℕ) => if (decide (pnlMin trades + (i : ℚ) * pnlBinSize trades ≤ p) &&
              decide (p < pnlMin trades + (i : ℚ) * pnlBinSize trades + pnlBinSize trades)) = true
              then 1 else 0)).sum)).sum := by
      rw [← hswap]
      have hfun : (fun (i : ℕ) => (pnlProfits trades).countP
          (fun p => decide (pnlMin trades + (i : ℚ) * pnlBinSize trades ≤ p) &&
            decide (p < pnlMin trades + (i : ℚ) * pnlBinSize trades + pnlBinSize trades))) =
          (fun (i : ℕ) => ((pnlProfits trades).map
            (fun (p : ℚ) => if (decide (pnlMin trades + (i : ℚ) * pnlBinSize trades ≤ p) &&
              decide (p < pnlMin trades + (i : ℚ) * pnlBinSize trades + pnlBinSize trades)) = true
              then 1 else 0)).sum) := by
        funext i
        exact countP_eq_sum_map _ _
      rw [hfun]
    rw [hcount]
    have hlen : (pnlProfits trades).length = trades.length := by
      rw [pnlProfits, List.length_map]
    rw [← hlen]
    refine sum_map_lt_length _ _ (pnlMax trades) ?_ ?_ ?_
    · rw [pnlMax]
      exact listMaxQ_mem _ hpne
    · intro p
      exact bins_indicator_le_one _ _ hs _ p
    · exact bins_indicator_max_zero _ _ _ hs.le _ hBs

unseal Rat.add Rat.mul Rat.inv Rat.sub in
/-- C10 witness: on the two-trade collection with profits zero and one
the bin counts sum to one, strictly below the trade count of two. -/
theorem pnl_histogram_spec_witness :
    (getPnLDistribution [tZero, tOne]).sum < ([tZero, tOne] : List Trade).length :=
  (pnl_histogram_spec [tZero, tOne] (by decide) (by decide)).2

end TradingTracker
